import Mathlib

/-
  Verification of the "Document Evolution Pipeline" of the provocations
  repository: instruction classifier, context assembler, document evolver,
  change analyzer, version store and line diff renderer.

  The definitions below are shallow embeddings of the TypeScript / Apps
  Script sources:
    - server/routes.ts            (the /api/write handler)
    - gas/AccessControl.gs        (classifyInstruction, storage helpers)
    - gas/WriterService.gs        (writeDocument, evolveDocument_, analyzeChanges_)
    - gas/GeminiService.gs        (callGeminiJson)
    - client/src/components/DiffView.tsx (computeDiff)
    - client workspace state      (addEditHistoryEntry, setVersions)

  JavaScript strings are modelled as Lean `String` viewed as its list of
  characters; the JS builtins used by the sources (slice/substring, trim,
  toLowerCase, indexOf-substring search, split) are modelled explicitly
  below on `List Char`.  External effects (the LLM generation calls and
  JSON.parse of their output) are modelled as oracle inputs: a generation
  result is a `String` or, for JSON-mode calls, an `Option Json` which is
  `none` exactly when JSON.parse would throw on the returned text.
-/

namespace Provocations

/-- Model of JS `String.prototype.slice(0, n)` / `substring(0, n)`:
the first `n` characters of the string. -/
def strTake (s : String) (n : Nat) : String := ⟨s.data.take n⟩

/-- Model of JS `String.prototype.length` (character count). -/
def strLen (s : String) : Nat := s.data.length

/-- Model of JS `String.prototype.trim()`: strip whitespace from both ends. -/
def jsTrim (s : String) : String :=
  ⟨((s.data.dropWhile Char.isWhitespace).reverse.dropWhile Char.isWhitespace).reverse⟩

/-- Model of JS `String.prototype.toLowerCase()`. -/
def lowerStr (s : String) : String := ⟨s.data.map Char.toLower⟩

/-- Does `pat` occur at the very start of `hay`? -/
def isStart : List Char → List Char → Bool
  | [], _ => true
  | _ :: _, [] => false
  | p :: ps, h :: hs => p == h && isStart ps hs

/-- Does `pat` occur anywhere inside `hay`?  Model of JS
`hay.indexOf(pat) !== -1`. -/
def containsSeq : List Char → List Char → Bool
  | [], pat => pat.isEmpty
  | h :: t, pat => isStart pat (h :: t) || containsSeq t pat

/-- `containsSubstr s pat`: the string `pat` occurs inside `s`. -/
def containsSubstr (s pat : String) : Bool := containsSeq s.data pat.data

/-- Model of JS `Array.prototype.slice(-n)`: the last `n` elements. -/
def takeLast {α : Type} (n : Nat) (l : List α) : List α := l.drop (l.length - n)

/-- Membership test on a list of strings; model of `Set.has` /
`Array.prototype.includes` on the line sets of the diff. -/
def hasLine (l : List String) (s : String) : Bool := l.any (fun x => decide (x = s))

theorem hasLine_eq_true_iff {l : List String} {s : String} :
    hasLine l s = true ↔ s ∈ l := by
  simp [hasLine, List.any_eq_true]

theorem hasLine_eq_false_iff {l : List String} {s : String} :
    hasLine l s = false ↔ s ∉ l := by
  rw [← Bool.not_eq_true, not_iff_not]
  exact hasLine_eq_true_iff

-- ============================================================
-- Instruction Classifier (AccessControl.gs classifyInstruction,
-- mirrored by server/routes.ts classifyInstruction)
-- ============================================================

inductive InstructionType where
  | expand
  | condense
  | restructure
  | clarify
  | style
  | correct
  | general
deriving DecidableEq, Repr

/-- Pattern list for the `expand` category (AccessControl.gs
INSTRUCTION_PATTERNS.expand). -/
def expandPatterns : List String :=
  ["expand", "elaborate", "add detail", "develop", "flesh out", "more about",
   "tell me more", "explain further"]

/-- Pattern list for the `condense` category. -/
def condensePatterns : List String :=
  ["condense", "shorten", "shorter", "summarize", "brief", "concise", "cut",
   "reduce", "tighten", "trim"]

/-- Pattern list for the `restructure` category. -/
def restructurePatterns : List String :=
  ["restructure", "reorganize", "reorder", "move", "rearrange", "add section",
   "add heading", "split", "merge section"]

/-- Pattern list for the `clarify` category. -/
def clarifyPatterns : List String :=
  ["clarify", "simplify", "clearer", "easier to understand", "plain",
   "straightforward", "confus"]

/-- Pattern list for the `style` category. -/
def stylePatterns : List String :=
  ["tone", "voice", "formal", "informal", "professional", "casual", "friendly",
   "academic", "style"]

/-- Pattern list for the `correct` category. -/
def correctPatterns : List String :=
  ["fix", "correct", "error", "mistake", "typo", "grammar", "spelling", "wrong",
   "inaccurate"]

/-- The pattern table in its source declaration (= iteration) order,
including the empty fallback entry for `general`. -/
def INSTRUCTION_PATTERNS : List (InstructionType × List String) :=
  [(.expand, expandPatterns),
   (.condense, condensePatterns),
   (.restructure, restructurePatterns),
   (.clarify, clarifyPatterns),
   (.style, stylePatterns),
   (.correct, correctPatterns),
   (.general, [])]

/-- The `for (var type in INSTRUCTION_PATTERNS)` loop of
`classifyInstruction`: first category (skipping `general`) with a pattern
occurring in the lowercased instruction. -/
def classifyGo : List (InstructionType × List String) → String → InstructionType
  | [], _ => .general
  | (t, pats) :: rest, lower =>
    if t = .general then classifyGo rest lower
    else if pats.any (fun p => containsSubstr lower p) then t
    else classifyGo rest lower

/-- `classifyInstruction` from AccessControl.gs (lowercase, then first
matching category in table order; `general` if none matches). -/
def classifyInstruction (instruction : String) : InstructionType :=
  classifyGo INSTRUCTION_PATTERNS (lowerStr instruction)

/-- Spec-side helper: does any pattern of the list match (case-insensitively)
the instruction? -/
def anyPatternMatch (pats : List String) (instruction : String) : Bool :=
  pats.any (fun p => containsSubstr (lowerStr instruction) p)

/-- Modelled from the spec wording of the classifier contract: return the
first category, in the fixed declaration order expand, condense,
restructure, clarify, style, correct, whose pattern list has any
case-insensitive match; `general` iff no pattern of any category matches. -/
def classifySpec (instruction : String) : InstructionType :=
  if anyPatternMatch expandPatterns instruction then .expand
  else if anyPatternMatch condensePatterns instruction then .condense
  else if anyPatternMatch restructurePatterns instruction then .restructure
  else if anyPatternMatch clarifyPatterns instruction then .clarify
  else if anyPatternMatch stylePatterns instruction then .style
  else if anyPatternMatch correctPatterns instruction then .correct
  else .general

/-- C3 counterexample: the instruction "Expand and shorten the tone"
matches a condense pattern ("shorten") and a style pattern ("tone"), yet
`classifyInstruction` returns `expand` (an expand pattern also matches and
expand is declared first), so the claim's "matching both a condense
pattern and a style pattern is classified condense" is false as stated. -/
theorem classifier_priority_counterexample :
    anyPatternMatch condensePatterns "Expand and shorten the tone" = true
    ∧ anyPatternMatch stylePatterns "Expand and shorten the tone" = true
    ∧ classifyInstruction "Expand and shorten the tone" ≠ .condense
    ∧ classifyInstruction "Expand and shorten the tone" = .expand := by
  refine ⟨by decide, by decide, by decide, by decide⟩

/-- C3 (amended): `classifyInstruction` returns the first category, in the
fixed declaration order expand, condense, restructure, clarify, style,
correct, whose pattern list has a case-insensitive match in the
instruction, and returns `general` iff no pattern of any category matches;
an instruction matching both a condense pattern and a style pattern, and
no pattern of the earlier-declared expand category, is classified
condense. -/
theorem classifier_first_match (instruction : String) :
    classifyInstruction instruction = classifySpec instruction
    ∧ (classifyInstruction instruction = .general ↔
        (anyPatternMatch expandPatterns instruction = false ∧
         anyPatternMatch condensePatterns instruction = false ∧
         anyPatternMatch restructurePatterns instruction = false ∧
         anyPatternMatch clarifyPatterns instruction = false ∧
         anyPatternMatch stylePatterns instruction = false ∧
         anyPatternMatch correctPatterns instruction = false))
    ∧ (anyPatternMatch expandPatterns instruction = false →
       anyPatternMatch condensePatterns instruction = true →
       anyPatternMatch stylePatterns instruction = true →
       classifyInstruction instruction = .condense) := by
  have hcls : classifyInstruction instruction = classifySpec instruction := by
    simp [classifyInstruction, INSTRUCTION_PATTERNS, classifyGo,
      classifySpec, anyPatternMatch]
  refine ⟨hcls, ?_, ?_⟩
  · rw [hcls]; unfold classifySpec
    cases h1 : anyPatternMatch expandPatterns instruction <;>
    cases h2 : anyPatternMatch condensePatterns instruction <;>
    cases h3 : anyPatternMatch restructurePatterns instruction <;>
    cases h4 : anyPatternMatch clarifyPatterns instruction <;>
    cases h5 : anyPatternMatch stylePatterns instruction <;>
    cases h6 : anyPatternMatch correctPatterns instruction <;>
    simp
  · intro h1 h2 _
    rw [hcls]; unfold classifySpec; rw [h1, h2]; simp

/-- C3 witness: the amended theorem applied to the instruction
"Please shorten this and fix the tone" (condense and style both match, no
expand pattern matches, classified condense). -/
theorem classifier_first_match_witness :
    classifyInstruction "Please shorten this and fix the tone" = .condense :=
  (classifier_first_match "Please shorten this and fix the tone").2.2
    (by decide) (by decide) (by decide)

-- ============================================================
-- JSON values (result of a successful JSON.parse of a generation
-- response; `undefined` models JS `undefined` for missing fields)
-- ============================================================

inductive Json where
  | undefined : Json
  | null : Json
  | bool : Bool → Json
  | num : Int → Json
  | str : String → Json
  | arr : List Json → Json
  | obj : List (String × Json) → Json

/-- Field lookup in a parsed JSON object. -/
def lookupField : List (String × Json) → String → Json
  | [], _ => .undefined
  | (k, v) :: rest, key => if k = key then v else lookupField rest key

/-- Model of JS property access `value.key`: the field of an object,
`undefined` on any non-object (JS yields undefined for primitives; for
`null` the source code's property access throws inside the surrounding
try/catch, with the same net result of keeping the defaults). -/
def Json.getField : Json → String → Json
  | .obj fields, key => lookupField fields key
  | _, _ => .undefined

/-- JS truthiness of a parsed JSON value. -/
def jsTruthy : Json → Bool
  | .undefined => false
  | .null => false
  | .bool b => b
  | .num n => decide (n ≠ 0)
  | .str s => decide (s ≠ "")
  | .arr _ => true
  | .obj _ => true

/-- The fixed change-type enum of the Change Analyzer. -/
def validTypes : List String := ["added", "modified", "removed", "restructured"]

/-- The deterministic fallback summary used by both implementations:
`"Applied: " + instruction.slice(0, 100) + ("..." if length > 100)`. -/
def defaultSummary (instruction : String) : String :=
  "Applied: " ++ strTake instruction 100 ++
    (if 100 < strLen instruction then "..." else "")

-- ============================================================
-- Change Analyzer, Apps Script branch
-- (GeminiService.gs callGeminiJson + WriterService.gs analyzeChanges_)
-- ============================================================

/-- `callGeminiJson`: issue the JSON-mode generation call; on JSON.parse
failure retry exactly once with a strengthened instruction; throw if the
retry is also unparsable.  The two generation attempts are oracle inputs:
`none` means the attempt's text did not parse as JSON. -/
def callGeminiJson (attempt1 attempt2 : Option Json) : Except String Json :=
  match attempt1 with
  | some j => .ok j
  | none =>
    match attempt2 with
    | some j => .ok j
    | none => .error "Failed to get valid JSON from Gemini after retry"

/-- A change record as built by `analyzeChanges_` (fields keep the JS
dynamic values). -/
structure GasChange where
  type : Json
  description : Json
  location : Json

/-- The record returned by `analyzeChanges_`. -/
structure GasAnalysis where
  summary : Json
  changes : List GasChange
  suggestions : List Json

/-- The `defaultResult` of `analyzeChanges_`. -/
def gasDefaultAnalysis (instruction : String) : GasAnalysis :=
  { summary := .str (defaultSummary instruction), changes := [], suggestions := [] }

/-- The per-change coercion inside `analyzeChanges_`: a `type` outside the
fixed enum becomes "modified", a falsy `description` becomes
"Document updated", a falsy `location` becomes undefined. -/
def gasCoerceChange (c : Json) : GasChange :=
  { type :=
      match c.getField "type" with
      | .str t => if validTypes.contains t then .str t else .str "modified"
      | _ => .str "modified",
    description :=
      if jsTruthy (c.getField "description") then c.getField "description"
      else .str "Document updated",
    location :=
      if jsTruthy (c.getField "location") then c.getField "location"
      else .undefined }

/-- `analyzeChanges_` from WriterService.gs: run the JSON-mode call (one
retry inside `callGeminiJson`); on success clamp and coerce the fields; on
any thrown error return the deterministic `defaultResult` — the catch
means no error ever reaches the caller. -/
def analyzeChanges (attempt1 attempt2 : Option Json) (instruction : String) :
    GasAnalysis :=
  match callGeminiJson attempt1 attempt2 with
  | .error _ => gasDefaultAnalysis instruction
  | .ok result =>
    { summary :=
        if jsTruthy (result.getField "summary") then result.getField "summary"
        else .str (defaultSummary instruction),
      changes :=
        match result.getField "changes" with
        | .arr l => (l.take 3).map gasCoerceChange
        | _ => [],
      suggestions :=
        match result.getField "suggestions" with
        | .arr l =>
          (l.filter (fun s => match s with | .str _ => true | _ => false)).take 2
        | _ => [] }

/-- C2: the Change Analyzer retries exactly once (the first parsable
attempt wins, the second attempt is consulted only when the first is
unparsable), and when both attempts are unparsable JSON it returns the
deterministic fallback — summary "Applied: " plus the instruction
truncated to 100 characters with "..." appended iff it exceeds 100
characters, empty changes, empty suggestions — as a total function, never
propagating an error to the caller. -/
theorem change_analyzer_fallback (instruction : String) (j : Json)
    (a2 : Option Json) :
    analyzeChanges none none instruction = gasDefaultAnalysis instruction
    ∧ (analyzeChanges none none instruction).summary =
        .str (if 100 < strLen instruction
              then "Applied: " ++ strTake instruction 100 ++ "..."
              else "Applied: " ++ instruction)
    ∧ (analyzeChanges none none instruction).changes = []
    ∧ (analyzeChanges none none instruction).suggestions = []
    ∧ callGeminiJson (some j) a2 = .ok j
    ∧ callGeminiJson none (some j) = .ok j := by
  have hsum : (analyzeChanges none none instruction).summary =
      .str (if 100 < strLen instruction
            then "Applied: " ++ strTake instruction 100 ++ "..."
            else "Applied: " ++ instruction) := by
    by_cases h : 100 < strLen instruction
    · simp [analyzeChanges, callGeminiJson, gasDefaultAnalysis, defaultSummary, h]
    · have hle : instruction.data.length ≤ 100 := by
        simpa [strLen] using Nat.le_of_not_lt h
      simp [analyzeChanges, callGeminiJson, gasDefaultAnalysis, defaultSummary, h,
        strTake, List.take_of_length_le hle]
  exact ⟨rfl, hsum, rfl, rfl, rfl, rfl⟩

-- ============================================================
-- /api/write handler (server/routes.ts)
-- ============================================================

inductive LensType where
  | consumer
  | executive
  | technical
  | financial
  | strategic
  | skeptic
deriving DecidableEq, Repr

inductive TargetLength where
  | shorter
  | same
  | longer
deriving DecidableEq, Repr

/-- A provocation passed in the write request (provocationContextSchema). -/
structure ProvocationCtx where
  type : String
  title : String
  content : String
  sourceExcerpt : String
deriving DecidableEq, Repr

/-- A reference document passed in the write request. -/
structure RefDoc where
  name : String
  content : String
  type : String
deriving DecidableEq, Repr

/-- An edit history entry as sent with the write request. -/
structure EditHistoryEntry where
  instruction : String
  instructionType : String
  summary : String
  timestamp : Nat
deriving DecidableEq, Repr

/-- The parsed body of POST /api/write (writeRequestSchema; the optional
array fields are modelled as possibly-empty lists, matching the
`xs && xs.length > 0` guards in the handler). -/
structure WriteRequest where
  document : String
  objective : String
  selectedText : Option String
  instruction : String
  provocation : Option ProvocationCtx
  activeLens : Option LensType
  tone : Option String
  targetLength : Option TargetLength
  referenceDocuments : List RefDoc
  editHistory : List EditHistoryEntry
deriving DecidableEq, Repr

/-- A change entry of the write response (routes.ts coerces each field to
the declared type). -/
structure ChangeEntry where
  type : String
  description : String
  location : Option String
deriving DecidableEq, Repr

/-- The summary / changes / suggestions triple the handler sends. -/
structure RoutesAnalysis where
  summary : String
  changes : List ChangeEntry
  suggestions : List String
deriving DecidableEq, Repr

/-- The change coercion in the handler's analysis block: a `type` outside
the fixed enum (or not a string) becomes "modified", a non-string
`description` becomes "Document updated", a non-string `location` becomes
undefined. -/
def coerceChange (c : Json) : ChangeEntry :=
  { type :=
      match c.getField "type" with
      | .str t => if t ∈ validTypes then t else "modified"
      | _ => "modified",
    description :=
      match c.getField "description" with
      | .str d => d
      | _ => "Document updated",
    location :=
      match c.getField "location" with
      | .str l => some l
      | _ => none }

/-- The analysis block of the /api/write handler: defaults (fallback
summary, empty changes and suggestions) overridden field by field from the
parsed JSON when present and well-typed; `parsed = none` is the
JSON.parse-threw case in which the catch keeps all defaults. -/
def extractAnalysis (instruction : String) (parsed : Option Json) :
    RoutesAnalysis :=
  match parsed with
  | none => { summary := defaultSummary instruction, changes := [], suggestions := [] }
  | some analysis =>
    { summary :=
        match analysis.getField "summary" with
        | .str s => s
        | _ => defaultSummary instruction,
      changes :=
        match analysis.getField "changes" with
        | .arr l => (l.take 3).map coerceChange
        | _ => [],
      suggestions :=
        match analysis.getField "suggestions" with
        | .arr l =>
          (l.filterMap (fun s => match s with | .str t => some t | _ => none)).take 2
        | _ => [] }

/-- The write response body (changes / suggestions are omitted when
empty). -/
structure WriteResponse where
  document : String
  summary : String
  instructionType : InstructionType
  changes : Option (List ChangeEntry)
  suggestions : Option (List String)
deriving DecidableEq, Repr

/-- The response computation of the /api/write handler, given the two
oracle generation results: `evolveContent` is
`documentResponse.choices[0]?.message?.content` (the `|| document`
fallback makes a missing or empty response fall back to the request
document) and `analysisParsed` is the JSON.parse of the analysis call
(`none` when it threw).  The handler responds with
`evolvedDocument.trim()`. -/
def writeHandler (req : WriteRequest) (evolveContent : Option String)
    (analysisParsed : Option Json) : WriteResponse :=
  let instructionType := classifyInstruction req.instruction
  let evolvedDocument :=
    match evolveContent with
    | none => req.document
    | some s => if s = "" then req.document else s
  let a := extractAnalysis req.instruction analysisParsed
  { document := jsTrim evolvedDocument,
    summary := a.summary,
    instructionType := instructionType,
    changes := if 0 < a.changes.length then some a.changes else none,
    suggestions := if 0 < a.suggestions.length then some a.suggestions else none }

/-- A concrete write request whose document carries trailing whitespace. -/
def c1Req : WriteRequest :=
  { document := "A draft. ", objective := "obj", selectedText := none,
    instruction := "expand it", provocation := none, activeLens := none,
    tone := none, targetLength := none, referenceDocuments := [],
    editHistory := [] }

/-- C1 counterexample: on an empty generation result the handler falls
back to the request document but still responds with its trim, so for the
request document "A draft. " (trailing space) the response document
differs from the request document. -/
theorem evolver_failsoft_counterexample :
    (writeHandler c1Req (some "") none).document ≠ c1Req.document := by
  decide

/-- C1 (amended): if the generation call for the Document Evolver returns
an empty string, the /api/write response document is the trim (leading and
trailing whitespace stripped) of the request document — in particular it
equals the request document unchanged whenever that document carries no
leading or trailing whitespace. -/
theorem evolver_failsoft_trim (req : WriteRequest) (ap : Option Json) :
    (writeHandler req (some "") ap).document = jsTrim req.document
    ∧ (jsTrim req.document = req.document →
        (writeHandler req (some "") ap).document = req.document) := by
  refine ⟨rfl, fun h => ?_⟩
  simpa [writeHandler] using h

/-- C1 witness: the amended theorem applied to a request document without
surrounding whitespace, which the empty-generation fallback returns
unchanged. -/
theorem evolver_failsoft_trim_witness :
    (writeHandler
      { document := "A clean draft.", objective := "obj", selectedText := none,
        instruction := "expand it", provocation := none, activeLens := none,
        tone := none, targetLength := none, referenceDocuments := [],
        editHistory := [] } (some "") none).document = "A clean draft." :=
  (evolver_failsoft_trim
      { document := "A clean draft.", objective := "obj", selectedText := none,
        instruction := "expand it", provocation := none, activeLens := none,
        tone := none, targetLength := none, referenceDocuments := [],
        editHistory := [] } none).2 (by decide)

theorem coerceChange_type_eq (c : Json) :
    (coerceChange c).type =
      match c.getField "type" with
      | Json.str t => if t ∈ validTypes then t else "modified"
      | _ => "modified" := rfl

theorem coerceChange_type_mem (c : Json) : (coerceChange c).type ∈ validTypes := by
  rw [coerceChange_type_eq]
  cases c.getField "type"
  case str t =>
    by_cases hmem : t ∈ validTypes
    · simp only [if_pos hmem]; exact hmem
    · simp only [if_neg hmem]; decide
  all_goals exact (by decide : "modified" ∈ validTypes)

/-- C6: for every parsed Change Analyzer output the handler returns at
most 3 changes and at most 2 suggestions, and any change whose `type` is
not one of added, modified, removed, restructured (including a non-string
`type`) is coerced to "modified". -/
theorem analysis_clamp_and_coerce :
    (∀ (j : Json) (instruction : String),
      (extractAnalysis instruction (some j)).changes.length ≤ 3
      ∧ (extractAnalysis instruction (some j)).suggestions.length ≤ 2
      ∧ ∀ c ∈ (extractAnalysis instruction (some j)).changes,
          c.type ∈ validTypes)
    ∧ (∀ (c : Json) (t : String),
        c.getField "type" = .str t → t ∉ validTypes →
        (coerceChange c).type = "modified")
    ∧ (∀ c : Json, (∀ t : String, c.getField "type" ≠ .str t) →
        (coerceChange c).type = "modified") := by
  refine ⟨fun j instruction => ⟨?_, ?_, ?_⟩, ?_, ?_⟩
  · cases h : j.getField "changes" <;>
      simp [extractAnalysis, h, List.length_take]
  · cases h : j.getField "suggestions" <;>
      simp [extractAnalysis, h, List.length_take]
  · intro c hc
    cases h : j.getField "changes" <;>
      simp only [extractAnalysis, h] at hc
    case arr l =>
      obtain ⟨a, _, rfl⟩ := List.mem_map.mp hc
      exact coerceChange_type_mem a
    all_goals simp at hc
  · intro c t hct hmem
    rw [coerceChange_type_eq, hct]
    simp [hmem]
  · intro c hne
    rw [coerceChange_type_eq]
    cases h : c.getField "type"
    case str t => exact absurd h (hne t)
    all_goals rfl

/-- A concrete parsed Change Analyzer output with four changes (one of
them of unknown type "banana") and three suggestions. -/
def c6Sample : Json :=
  Json.obj
    [("summary", Json.str "s"),
     ("changes", Json.arr
        [Json.obj [("type", Json.str "banana")],
         Json.obj [("type", Json.str "added")],
         Json.obj [], Json.obj []]),
     ("suggestions", Json.arr [Json.str "a", Json.str "b", Json.str "c"])]

/-- C6 witness: the theorem applied to the concrete sample output. -/
theorem analysis_clamp_and_coerce_witness :
    (extractAnalysis "make it pop" (some c6Sample)).changes.length ≤ 3
    ∧ (coerceChange (Json.obj [("type", Json.str "banana")])).type = "modified" :=
  ⟨(analysis_clamp_and_coerce.1 c6Sample "make it pop").1,
   analysis_clamp_and_coerce.2.1 (Json.obj [("type", Json.str "banana")])
     "banana" rfl (by decide)⟩

-- ============================================================
-- Diff Renderer (client/src/components/DiffView.tsx computeDiff)
-- ============================================================

inductive DiffType where
  | unchanged
  | added
  | removed
deriving DecidableEq, Repr

structure DiffLine where
  type : DiffType
  content : String
deriving DecidableEq, Repr

/-- Model of JS `text.split("\n")` on the character list: split on every
newline, keeping empty segments (the empty string yields one empty
segment). -/
def splitOnNl : List Char → List (List Char)
  | [] => [[]]
  | c :: cs =>
    if c = '\n' then [] :: splitOnNl cs
    else
      match splitOnNl cs with
      | [] => [[c]]
      | l :: ls => (c :: l) :: ls

/-- The line list of a text, as in `oldText.split("\n")`. -/
def splitNl (s : String) : List String := (splitOnNl s.data).map (fun l => ⟨l⟩)

/-- The while loop of `computeDiff`: `oldSet`/`newSet` are the fixed line
sets of the two inputs, the last two arguments the unconsumed suffixes at
the cursors. -/
def computeDiffGo (oldSet newSet : List String) :
    List String → List String → List DiffLine
  | [], [] => []
  | [], n :: ns => { type := .added, content := n } :: computeDiffGo oldSet newSet [] ns
  | o :: os, [] => { type := .removed, content := o } :: computeDiffGo oldSet newSet os []
  | o :: os, n :: ns =>
    if o = n then
      { type := .unchanged, content := o } :: computeDiffGo oldSet newSet os ns
    else if hasLine newSet o = false then
      { type := .removed, content := o } :: computeDiffGo oldSet newSet os (n :: ns)
    else if hasLine oldSet n = false then
      { type := .added, content := n } :: computeDiffGo oldSet newSet (o :: os) ns
    else
      { type := .removed, content := o } :: { type := .added, content := n } ::
        computeDiffGo oldSet newSet os ns
termination_by os ns => os.length + ns.length

/-- `computeDiff` from DiffView.tsx. -/
def computeDiff (oldText newText : String) : List DiffLine :=
  let oldLines := splitNl oldText
  let newLines := splitNl newText
  computeDiffGo oldLines newLines oldLines newLines

/-- The added count shown in the header:
`diffLines.filter(l => l.type === "added").length`. -/
def countAdded (r : List DiffLine) : Nat :=
  (r.filter (fun e => decide (e.type = DiffType.added))).length

/-- The removed count shown in the header. -/
def countRemoved (r : List DiffLine) : Nat :=
  (r.filter (fun e => decide (e.type = DiffType.removed))).length

theorem countAdded_cons (e : DiffLine) (r : List DiffLine) :
    countAdded (e :: r) =
      countAdded r + (if e.type = DiffType.added then 1 else 0) := by
  by_cases h : e.type = DiffType.added <;>
    simp [countAdded, List.filter_cons, h, Nat.add_comm]

theorem countRemoved_cons (e : DiffLine) (r : List DiffLine) :
    countRemoved (e :: r) =
      countRemoved r + (if e.type = DiffType.removed then 1 else 0) := by
  by_cases h : e.type = DiffType.removed <;>
    simp [countRemoved, List.filter_cons, h, Nat.add_comm]

theorem computeDiffGo_nil_left (S T : List String) (ns : List String) :
    computeDiffGo S T [] ns =
      ns.map (fun n => { type := DiffType.added, content := n }) := by
  induction ns with
  | nil => simp [computeDiffGo]
  | cons n ns ih => simp [computeDiffGo, ih]

theorem computeDiffGo_nil_right (S T : List String) (os : List String) :
    computeDiffGo S T os [] =
      os.map (fun o => { type := DiffType.removed, content := o }) := by
  induction os with
  | nil => simp [computeDiffGo]
  | cons o os ih => simp [computeDiffGo, ih]

theorem computeDiffGo_self (S T : List String) (l : List String) :
    computeDiffGo S T l l =
      l.map (fun s => { type := DiffType.unchanged, content := s }) := by
  induction l with
  | nil => simp [computeDiffGo]
  | cons o os ih => simp [computeDiffGo, ih]

/-- In the fully disjoint case the walk first removes every old line
(each is absent from the new side) and then, the old side exhausted, adds
every new line. -/
theorem computeDiffGo_disjoint (S T ns : List String)
    (hns : ∀ l ∈ ns, hasLine S l = false) :
    ∀ os, (∀ l ∈ os, hasLine T l = false) → (∀ l ∈ os, hasLine S l = true) →
      computeDiffGo S T os ns =
        os.map (fun o => { type := DiffType.removed, content := o })
          ++ ns.map (fun n => { type := DiffType.added, content := n }) := by
  intro os
  induction os with
  | nil => intro _ _; simp [computeDiffGo_nil_left]
  | cons o os ih =>
    intro hT hS
    have hTo : hasLine T o = false := hT o (List.mem_cons_self o os)
    have hSo : hasLine S o = true := hS o (List.mem_cons_self o os)
    cases ns with
    | nil => simp [computeDiffGo_nil_right]
    | cons n ns2 =>
      have hSn : hasLine S n = false := hns n (List.mem_cons_self n ns2)
      have hne : o ≠ n := by
        intro h
        rw [h, hSn] at hSo
        exact Bool.noConfusion hSo
      rw [computeDiffGo]
      simp only [if_neg hne, hTo, if_pos rfl]
      rw [ih (fun l hl => hT l (List.mem_cons_of_mem o hl))
            (fun l hl => hS l (List.mem_cons_of_mem o hl))]
      simp

/-- Combined structural facts about the diff walk: the removed count is
bounded by the old cursor's remaining lines, the added count by the new
cursor's, the output length lies between the two remainders and their
sum, and every emitted content is one of the remaining lines. -/
theorem computeDiffGo_facts (S T : List String) :
    ∀ (k : Nat) (os ns : List String), os.length + ns.length ≤ k →
      countRemoved (computeDiffGo S T os ns) ≤ os.length
      ∧ countAdded (computeDiffGo S T os ns) ≤ ns.length
      ∧ os.length ≤ (computeDiffGo S T os ns).length
      ∧ ns.length ≤ (computeDiffGo S T os ns).length
      ∧ (computeDiffGo S T os ns).length ≤ os.length + ns.length
      ∧ ∀ e ∈ computeDiffGo S T os ns, e.content ∈ os ∨ e.content ∈ ns := by
  intro k
  induction k with
  | zero =>
    intro os ns h
    have hos : os = [] := List.length_eq_zero.mp (by omega)
    have hns : ns = [] := List.length_eq_zero.mp (by omega)
    subst hos; subst hns
    simp [computeDiffGo, countAdded, countRemoved]
  | succ k ih =>
    intro os ns h
    match os, ns with
    | [], [] => simp [computeDiffGo, countAdded, countRemoved]
    | [], n :: ns2 =>
      obtain ⟨a1, a2, a3, a4, a5, a6⟩ :=
        ih [] ns2 (by simp at h ⊢; omega)
      rw [computeDiffGo]
      refine ⟨?_, ?_, ?_, ?_, ?_, ?_⟩
      · rw [countRemoved_cons]; simp at a1 ⊢; omega
      · rw [countAdded_cons]; simp at a2 ⊢; omega
      · simp
      · simp at a4 ⊢; omega
      · simp at a5 ⊢; omega
      · intro e he
        rcases List.mem_cons.mp he with rfl | he2
        · simp
        · rcases a6 e he2 with h1 | h1
          · simp at h1
          · exact Or.inr (List.mem_cons_of_mem n h1)
    | o :: os2, [] =>
      obtain ⟨a1, a2, a3, a4, a5, a6⟩ :=
        ih os2 [] (by simp at h ⊢; omega)
      rw [computeDiffGo]
      refine ⟨?_, ?_, ?_, ?_, ?_, ?_⟩
      · rw [countRemoved_cons]; simp at a1 ⊢; omega
      · rw [countAdded_cons]; simp at a2 ⊢; omega
      · simp at a3 ⊢; omega
      · simp
      · simp at a5 ⊢; omega
      · intro e he
        rcases List.mem_cons.mp he with rfl | he2
        · simp
        · rcases a6 e he2 with h1 | h1
          · exact Or.inl (List.mem_cons_of_mem o h1)
          · simp at h1
    | o :: os2, n :: ns2 =>
      by_cases heq : o = n
      · subst heq
        obtain ⟨a1, a2, a3, a4, a5, a6⟩ :=
          ih os2 ns2 (by simp at h ⊢; omega)
        have hgo : computeDiffGo S T (o :: os2) (o :: ns2) =
            { type := DiffType.unchanged, content := o } ::
              computeDiffGo S T os2 ns2 := by
          rw [computeDiffGo]; simp
        rw [hgo]
        refine ⟨?_, ?_, ?_, ?_, ?_, ?_⟩
        · rw [countRemoved_cons]; simp at a1 ⊢; omega
        · rw [countAdded_cons]; simp at a2 ⊢; omega
        · simp at a3 ⊢; omega
        · simp at a4 ⊢; omega
        · simp at a5 ⊢; omega
        · intro e he
          rcases List.mem_cons.mp he with rfl | he2
          · simp
          · rcases a6 e he2 with h1 | h1
            · exact Or.inl (List.mem_cons_of_mem o h1)
            · exact Or.inr (List.mem_cons_of_mem o h1)
      · cases hTo : hasLine T o
        · obtain ⟨a1, a2, a3, a4, a5, a6⟩ :=
            ih os2 (n :: ns2) (by simp at h ⊢; omega)
          have hgo : computeDiffGo S T (o :: os2) (n :: ns2) =
              { type := DiffType.removed, content := o } ::
                computeDiffGo S T os2 (n :: ns2) := by
            rw [computeDiffGo]; simp [heq, hTo]
          rw [hgo]
          refine ⟨?_, ?_, ?_, ?_, ?_, ?_⟩
          · rw [countRemoved_cons]; simp at a1 ⊢; omega
          · rw [countAdded_cons]; simp at a2 ⊢; omega
          · simp at a3 ⊢; omega
          · simp at a4 ⊢; omega
          · simp at a5 ⊢; omega
          · intro e he
            rcases List.mem_cons.mp he with rfl | he2
            · simp
            · rcases a6 e he2 with h1 | h1
              · exact Or.inl (List.mem_cons_of_mem o h1)
              · exact Or.inr h1
        · cases hSn : hasLine S n
          · obtain ⟨a1, a2, a3, a4, a5, a6⟩ :=
              ih (o :: os2) ns2 (by simp at h ⊢; omega)
            have hgo : computeDiffGo S T (o :: os2) (n :: ns2) =
                { type := DiffType.added, content := n } ::
                  computeDiffGo S T (o :: os2) ns2 := by
              rw [computeDiffGo]; simp [heq, hTo, hSn]
            rw [hgo]
            refine ⟨?_, ?_, ?_, ?_, ?_, ?_⟩
            · rw [countRemoved_cons]; simp at a1 ⊢; omega
            · rw [countAdded_cons]; simp at a2 ⊢; omega
            · simp at a3 ⊢; omega
            · simp at a4 ⊢; omega
            · simp at a5 ⊢; omega
            · intro e he
              rcases List.mem_cons.mp he with rfl | he2
              · simp
              · rcases a6 e he2 with h1 | h1
                · exact Or.inl h1
                · exact Or.inr (List.mem_cons_of_mem n h1)
          · obtain ⟨a1, a2, a3, a4, a5, a6⟩ :=
              ih os2 ns2 (by simp at h ⊢; omega)
            have hgo : computeDiffGo S T (o :: os2) (n :: ns2) =
                { type := DiffType.removed, content := o } ::
                  { type := DiffType.added, content := n } ::
                    computeDiffGo S T os2 ns2 := by
              rw [computeDiffGo]; simp [heq, hTo, hSn]
            rw [hgo]
            refine ⟨?_, ?_, ?_, ?_, ?_, ?_⟩
            · rw [countRemoved_cons, countRemoved_cons]; simp at a1 ⊢; omega
            · rw [countAdded_cons, countAdded_cons]; simp at a2 ⊢; omega
            · simp at a3 ⊢; omega
            · simp at a4 ⊢; omega
            · simp at a5 ⊢; omega
            · intro e he
              rcases List.mem_cons.mp he with rfl | he2
              · simp
              · rcases List.mem_cons.mp he2 with rfl | he3
                · simp
                · rcases a6 e he3 with h1 | h1
                  · exact Or.inl (List.mem_cons_of_mem o h1)
                  · exact Or.inr (List.mem_cons_of_mem n h1)

theorem splitOnNl_ne_nil (l : List Char) : splitOnNl l ≠ [] := by
  cases l with
  | nil => simp [splitOnNl]
  | cons c cs =>
    rw [splitOnNl]
    split
    · simp
    · split <;> simp

theorem splitNl_ne_nil (s : String) : splitNl s ≠ [] := by
  simp [splitNl, splitOnNl_ne_nil]

theorem countAdded_map_unchanged (l : List String) :
    countAdded (l.map (fun s => { type := DiffType.unchanged, content := s })) = 0 := by
  induction l with
  | nil => simp [countAdded]
  | cons x xs ih => simp [countAdded_cons, ih]

theorem countRemoved_map_unchanged (l : List String) :
    countRemoved (l.map (fun s => { type := DiffType.unchanged, content := s })) = 0 := by
  induction l with
  | nil => simp [countRemoved]
  | cons x xs ih => simp [countRemoved_cons, ih]

/-- C4: for texts with no shared line, the diff is exactly all old lines
as removed entries followed by all new lines as added entries, and for
every pair of texts the added count plus the removed count is at most the
combined number of lines of both inputs. -/
theorem diff_disjoint_totals (old new : String) :
    ((∀ l ∈ splitNl old, l ∉ splitNl new) →
      computeDiff old new =
        (splitNl old).map (fun s => { type := DiffType.removed, content := s })
          ++ (splitNl new).map (fun s => { type := DiffType.added, content := s }))
    ∧ countAdded (computeDiff old new) + countRemoved (computeDiff old new)
        ≤ (splitNl old).length + (splitNl new).length := by
  have hdef : computeDiff old new =
      computeDiffGo (splitNl old) (splitNl new) (splitNl old) (splitNl new) := rfl
  constructor
  · intro hd
    have hT : ∀ l ∈ splitNl old, hasLine (splitNl new) l = false :=
      fun l hl => hasLine_eq_false_iff.mpr (hd l hl)
    have hS : ∀ l ∈ splitNl old, hasLine (splitNl old) l = true :=
      fun l hl => hasLine_eq_true_iff.mpr hl
    have hns : ∀ l ∈ splitNl new, hasLine (splitNl old) l = false :=
      fun l hl => hasLine_eq_false_iff.mpr (fun hmem => hd l hmem hl)
    rw [hdef]
    exact computeDiffGo_disjoint (splitNl old) (splitNl new) (splitNl new)
      hns (splitNl old) hT hS
  · obtain ⟨h1, h2, -⟩ :=
      computeDiffGo_facts (splitNl old) (splitNl new)
        ((splitNl old).length + (splitNl new).length)
        (splitNl old) (splitNl new) le_rfl
    rw [hdef]
    omega

/-- C4 witness: the disjoint-shape conclusion at the one-line texts "a"
and "b". -/
theorem diff_disjoint_totals_witness :
    computeDiff "a" "b" =
      (splitNl "a").map (fun s => { type := DiffType.removed, content := s })
        ++ (splitNl "b").map (fun s => { type := DiffType.added, content := s }) :=
  (diff_disjoint_totals "a" "b").1 (by decide)

/-- C5: diffing a text against itself yields one `unchanged` entry per
line carrying that line, and zero `added` and zero `removed` entries. -/
theorem diff_identity (t : String) :
    computeDiff t t =
      (splitNl t).map (fun s => { type := DiffType.unchanged, content := s })
    ∧ countAdded (computeDiff t t) = 0
    ∧ countRemoved (computeDiff t t) = 0 := by
  have hdef : computeDiff t t =
      computeDiffGo (splitNl t) (splitNl t) (splitNl t) (splitNl t) := rfl
  have hmap := computeDiffGo_self (splitNl t) (splitNl t) (splitNl t)
  refine ⟨hdef ▸ hmap, ?_, ?_⟩
  · rw [hdef, hmap, countAdded_map_unchanged]
  · rw [hdef, hmap, countRemoved_map_unchanged]

/-- C10: the diff is total and structurally bounded — its length lies
between the larger and the sum of the two line counts, every entry carries
one of the three labels and a content that is a line of one of the two
inputs, and the diff of two empty strings is the single unchanged empty
line (the result is never empty). -/
theorem diff_shape_invariants (old new : String) :
    ((splitNl old).length ≤ (computeDiff old new).length
      ∧ (splitNl new).length ≤ (computeDiff old new).length)
    ∧ (computeDiff old new).length ≤ (splitNl old).length + (splitNl new).length
    ∧ (∀ e ∈ computeDiff old new,
        (e.type = DiffType.unchanged ∨ e.type = DiffType.added ∨
          e.type = DiffType.removed)
        ∧ (e.content ∈ splitNl old ∨ e.content ∈ splitNl new))
    ∧ computeDiff "" "" = [{ type := DiffType.unchanged, content := "" }]
    ∧ computeDiff old new ≠ [] := by
  have hdef : computeDiff old new =
      computeDiffGo (splitNl old) (splitNl new) (splitNl old) (splitNl new) := rfl
  obtain ⟨-, -, h3, h4, h5, h6⟩ :=
    computeDiffGo_facts (splitNl old) (splitNl new)
      ((splitNl old).length + (splitNl new).length)
      (splitNl old) (splitNl new) le_rfl
  refine ⟨⟨hdef ▸ h3, hdef ▸ h4⟩, hdef ▸ h5, ?_, ?_, ?_⟩
  · intro e he
    refine ⟨?_, h6 e (hdef ▸ he)⟩
    cases e.type
    · exact Or.inl rfl
    · exact Or.inr (Or.inl rfl)
    · exact Or.inr (Or.inr rfl)
  · have h0 : splitNl "" = [""] := rfl
    have : computeDiff "" "" =
        computeDiffGo (splitNl "") (splitNl "") (splitNl "") (splitNl "") := rfl
    rw [this, computeDiffGo_self, h0]
    rfl
  · intro hempty
    have hpos : 0 < (splitNl old).length :=
      List.length_pos.mpr (splitNl_ne_nil old)
    rw [hdef] at hempty
    rw [hempty] at h3
    simp only [List.length_nil] at h3
    omega

/-- C10 witness: the per-entry conjunct at the unchanged empty line, whose
membership in `computeDiff "" ""` comes from the theorem's own
empty-diff conclusion. -/
theorem diff_shape_invariants_witness :
    (({ type := DiffType.unchanged, content := "" } : DiffLine).type = DiffType.unchanged
      ∨ ({ type := DiffType.unchanged, content := "" } : DiffLine).type = DiffType.added
      ∨ ({ type := DiffType.unchanged, content := "" } : DiffLine).type = DiffType.removed)
    ∧ ("" ∈ splitNl "" ∨ "" ∈ splitNl "") := by
  have hmem : ({ type := DiffType.unchanged, content := "" } : DiffLine)
      ∈ computeDiff "" "" := by
    rw [(diff_shape_invariants "" "").2.2.2.1]
    exact List.mem_singleton.mpr rfl
  exact (diff_shape_invariants "" "").2.2.1 _ hmem

-- ============================================================
-- Context Assembler (the contextParts pushes of the /api/write
-- handler in server/routes.ts; GAS writeDocument builds the same
-- blocks)
-- ============================================================

def typeName : InstructionType → String
  | .expand => "expand"
  | .condense => "condense"
  | .restructure => "restructure"
  | .clarify => "clarify"
  | .style => "style"
  | .correct => "correct"
  | .general => "general"

/-- The fixed strategy text per instruction type
(instructionStrategies in routes.ts). -/
def instructionStrategies : InstructionType → String
  | .expand => "Add depth, examples, supporting details, and elaboration. Develop ideas more fully while maintaining coherence."
  | .condense => "Remove redundancy, tighten prose, eliminate filler words. Preserve core meaning while reducing length."
  | .restructure => "Reorganize content for better flow. Add or modify headings, reorder sections, improve logical progression."
  | .clarify => "Simplify language, add transitions, break down complex ideas. Make the text more accessible without losing meaning."
  | .style => "Adjust the voice and tone. Maintain the content while shifting the register, formality, or emotional quality."
  | .correct => "Fix errors in grammar, spelling, facts, or logic. Make precise corrections without unnecessary changes."
  | .general => "Make targeted improvements based on the specific instruction. Balance multiple considerations appropriately."

/-- The always-pushed strategy block. -/
def instructionPart (t : InstructionType) : String :=
  "INSTRUCTION TYPE: " ++ (typeName t ++ ("\nSTRATEGY: " ++ instructionStrategies t))

/-- One line of the edit-history block:
`- [${e.instructionType}] ${e.instruction.slice(0, 80)}${e.instruction.length > 80 ? "..." : ""}`. -/
def historyLine (e : EditHistoryEntry) : String :=
  "- [" ++ e.instructionType ++ "] " ++ strTake e.instruction 80 ++
    (if 80 < strLen e.instruction then "..." else "")

/-- The edit-history block pushed when the incoming history is non-empty:
header plus the last five entries joined by newlines. -/
def historyPart (editHistory : List EditHistoryEntry) : String :=
  "RECENT EDIT HISTORY (maintain consistency with previous changes):\n" ++
    String.intercalate "\n" ((takeLast 5 editHistory).map historyLine)

def refTypeLabel (t : String) : String :=
  if t = "style" then "STYLE GUIDE"
  else if t = "template" then "TEMPLATE"
  else "EXAMPLE"

/-- One reference-document summary, content truncated to 1000 chars. -/
def refSummary (d : RefDoc) : String :=
  "[" ++ refTypeLabel d.type ++ ": " ++ d.name ++ "]\n" ++ strTake d.content 1000 ++
    (if 1000 < strLen d.content then "..." else "")

/-- The reference-documents block. -/
def refPart (docs : List RefDoc) : String :=
  "REFERENCE DOCUMENTS (use these to guide tone, style, and structure):\n" ++
    (String.intercalate "\n\n---\n\n" (docs.map refSummary) ++
      "\n\nAnalyze the style, structure, and voice of these references. Match the target document\x27s quality, formatting patterns, and professional standards where appropriate.")

def lensName : LensType → String
  | .consumer => "consumer"
  | .executive => "executive"
  | .technical => "technical"
  | .financial => "financial"
  | .strategic => "strategic"
  | .skeptic => "skeptic"

/-- The fixed human-readable lens descriptions of the handler. -/
def lensDescription : LensType → String
  | .consumer => "end-user/customer perspective - focusing on user needs and experience"
  | .executive => "strategic leadership perspective - focusing on business impact"
  | .technical => "technical implementation perspective - focusing on feasibility"
  | .financial => "financial perspective - focusing on costs and ROI"
  | .strategic => "competitive positioning perspective - focusing on market advantage"
  | .skeptic => "critical perspective - questioning assumptions and risks"

def lensPart (l : LensType) : String :=
  "PERSPECTIVE: Apply the " ++ (lensName l ++ (" lens (" ++ (lensDescription l ++ ")")))

def provPart (p : ProvocationCtx) : String :=
  "PROVOCATION BEING ADDRESSED:\nType: " ++
    (p.type ++ ("\nChallenge: " ++ (p.title ++ ("\nDetails: " ++
      (p.content ++ ("\nRelevant excerpt: \"" ++ (p.sourceExcerpt ++ "\"")))))))

def tonePart (t : String) : String := "TONE: Write in a " ++ (t ++ " voice")

def lengthInstruction : TargetLength → String
  | .shorter => "Make it more concise (60-70% of current length)"
  | .same => "Maintain similar length"
  | .longer => "Expand with more detail (130-150% of current length)"

def lengthPart (tl : TargetLength) : String := "LENGTH: " ++ lengthInstruction tl

/-- The ordered context blocks the handler pushes before the generation
call (each conditional push modelled as a possibly-empty segment). -/
def contextParts (req : WriteRequest) : List String :=
  [instructionPart (classifyInstruction req.instruction)]
  ++ (if 0 < req.editHistory.length then [historyPart req.editHistory] else [])
  ++ (if 0 < req.referenceDocuments.length then [refPart req.referenceDocuments] else [])
  ++ (match req.activeLens with | some l => [lensPart l] | none => [])
  ++ (match req.provocation with | some p => [provPart p] | none => [])
  ++ (match req.tone with | some t => [tonePart t] | none => [])
  ++ (match req.targetLength with | some tl => [lengthPart tl] | none => [])

/-- Does string `s` begin with `pre`? -/
def startsWithStr (s pre : String) : Bool := isStart pre.data s.data

theorem isStart_append_of_length_le (pat a b : List Char)
    (h : pat.length ≤ a.length) : isStart pat (a ++ b) = isStart pat a := by
  induction pat generalizing a with
  | nil => simp [isStart]
  | cons p ps ih =>
    cases a with
    | nil => simp at h
    | cons x xs =>
      simp only [List.cons_append, isStart]
      exact congrArg (fun r => p == x && r) (ih xs (by simp at h; omega))

theorem startsWithStr_append (head rest pre : String)
    (h : pre.data.length ≤ head.data.length) :
    startsWithStr (head ++ rest) pre = isStart pre.data head.data := by
  simp only [startsWithStr, String.data_append]
  exact isStart_append_of_length_le _ _ _ h

theorem instructionPart_no_marker (t : InstructionType) :
    startsWithStr (instructionPart t) "RECENT " = false := by
  cases t <;> decide

theorem historyPart_marker (eh : List EditHistoryEntry) :
    startsWithStr (historyPart eh) "RECENT " = true := by
  rw [historyPart,
    startsWithStr_append
      "RECENT EDIT HISTORY (maintain consistency with previous changes):\n"
      _ "RECENT " (by decide)]
  decide

theorem refPart_no_marker (docs : List RefDoc) :
    startsWithStr (refPart docs) "RECENT " = false := by
  rw [refPart,
    startsWithStr_append
      "REFERENCE DOCUMENTS (use these to guide tone, style, and structure):\n"
      _ "RECENT " (by decide)]
  decide

theorem lensPart_no_marker (l : LensType) :
    startsWithStr (lensPart l) "RECENT " = false := by
  cases l <;> decide

theorem provPart_no_marker (p : ProvocationCtx) :
    startsWithStr (provPart p) "RECENT " = false := by
  rw [provPart,
    startsWithStr_append "PROVOCATION BEING ADDRESSED:\nType: "
      _ "RECENT " (by decide)]
  decide

theorem tonePart_no_marker (t : String) :
    startsWithStr (tonePart t) "RECENT " = false := by
  rw [tonePart,
    startsWithStr_append "TONE: Write in a " _ "RECENT " (by decide)]
  decide

theorem lengthPart_no_marker (tl : TargetLength) :
    startsWithStr (lengthPart tl) "RECENT " = false := by
  cases tl <;> decide

theorem mem_contextParts_iff (req : WriteRequest) (p : String) :
    p ∈ contextParts req ↔
      p = instructionPart (classifyInstruction req.instruction)
      ∨ (0 < req.editHistory.length ∧ p = historyPart req.editHistory)
      ∨ (0 < req.referenceDocuments.length ∧ p = refPart req.referenceDocuments)
      ∨ (∃ l, req.activeLens = some l ∧ p = lensPart l)
      ∨ (∃ pr, req.provocation = some pr ∧ p = provPart pr)
      ∨ (∃ t, req.tone = some t ∧ p = tonePart t)
      ∨ (∃ tl, req.targetLength = some tl ∧ p = lengthPart tl) := by
  unfold contextParts
  rcases hA : req.activeLens with - | l <;>
  rcases hP : req.provocation with - | pr <;>
  rcases hT : req.tone with - | t <;>
  rcases hL : req.targetLength with - | tl <;>
  by_cases h1 : 0 < req.editHistory.length <;>
  by_cases h2 : 0 < req.referenceDocuments.length <;>
  simp [hA, hP, hT, hL, h1, h2]

/-- C7: the prompt context contains an edit-history block iff the edit
history is non-empty; when present that block is unique (no other block
starts with its header) and is built from at most the last 5 entries
(`slice(-5)` = drop all but the trailing five), each line holding the
entry's instruction truncated to 80 characters with an ellipsis appended
iff it exceeded 80 characters. -/
theorem context_history_block (req : WriteRequest) :
    (req.editHistory = [] →
      ∀ p ∈ contextParts req, startsWithStr p "RECENT " = false)
    ∧ (req.editHistory ≠ [] →
        historyPart req.editHistory ∈ contextParts req
        ∧ ∀ p ∈ contextParts req, startsWithStr p "RECENT " = true →
            p = historyPart req.editHistory)
    ∧ (takeLast 5 req.editHistory).length ≤ 5
    ∧ takeLast 5 req.editHistory =
        req.editHistory.drop (req.editHistory.length - 5)
    ∧ ∀ e : EditHistoryEntry,
        historyLine e = "- [" ++ e.instructionType ++ "] " ++
          (if 80 < strLen e.instruction
           then strTake e.instruction 80 ++ "..."
           else e.instruction) := by
  refine ⟨?_, ?_, ?_, rfl, ?_⟩
  · intro hempty p hp
    rw [mem_contextParts_iff] at hp
    rcases hp with rfl | ⟨hlen, rfl⟩ | ⟨-, rfl⟩ | ⟨l, -, rfl⟩ | ⟨pr, -, rfl⟩ |
      ⟨t, -, rfl⟩ | ⟨tl, -, rfl⟩
    · exact instructionPart_no_marker _
    · rw [hempty] at hlen; simp at hlen
    · exact refPart_no_marker _
    · exact lensPart_no_marker _
    · exact provPart_no_marker _
    · exact tonePart_no_marker _
    · exact lengthPart_no_marker _
  · intro hne
    constructor
    · rw [mem_contextParts_iff]
      exact Or.inr (Or.inl ⟨List.length_pos.mpr hne, rfl⟩)
    · intro p hp hmark
      rw [mem_contextParts_iff] at hp
      rcases hp with rfl | ⟨-, rfl⟩ | ⟨-, rfl⟩ | ⟨l, -, rfl⟩ | ⟨pr, -, rfl⟩ |
        ⟨t, -, rfl⟩ | ⟨tl, -, rfl⟩
      · rw [instructionPart_no_marker] at hmark; exact Bool.noConfusion hmark
      · rfl
      · rw [refPart_no_marker] at hmark; exact Bool.noConfusion hmark
      · rw [lensPart_no_marker] at hmark; exact Bool.noConfusion hmark
      · rw [provPart_no_marker] at hmark; exact Bool.noConfusion hmark
      · rw [tonePart_no_marker] at hmark; exact Bool.noConfusion hmark
      · rw [lengthPart_no_marker] at hmark; exact Bool.noConfusion hmark
  · simp only [takeLast, List.length_drop]
    omega
  · intro e
    by_cases h80 : 80 < strLen e.instruction
    · simp [historyLine, h80, String.append_assoc]
    · have hle : e.instruction.data.length ≤ 80 := Nat.le_of_not_lt h80
      simp [historyLine, h80, strTake, List.take_of_length_le hle,
        String.append_empty]

/-- A sample edit-history entry. -/
def c7Entry : EditHistoryEntry :=
  { instruction := "shorten it", instructionType := "condense",
    summary := "s", timestamp := 1 }

/-- A sample write request with one edit-history entry. -/
def c7Req : WriteRequest :=
  { document := "doc", objective := "obj", selectedText := none,
    instruction := "fix typos", provocation := none, activeLens := none,
    tone := none, targetLength := none, referenceDocuments := [],
    editHistory := [c7Entry] }

/-- C7 witness: a request with one history entry, whose context contains
the edit-history block. -/
theorem context_history_block_witness :
    historyPart [c7Entry] ∈ contextParts c7Req :=
  ((context_history_block c7Req).2.1 (by decide)).1

-- ============================================================
-- Version Store (client workspace `setVersions(prev => [...prev, v])`;
-- the sheet-backed saveVersion appends a row the same way)
-- ============================================================

structure DocumentVersion where
  id : String
  text : String
  timestamp : Nat
  description : String
deriving DecidableEq, Repr

/-- One successful append: `setVersions(prev => [...prev, newVersion])`. -/
def appendVersion (versions : List DocumentVersion) (v : DocumentVersion) :
    List DocumentVersion := versions ++ [v]

/-- A whole sequence of appends run in call order. -/
def runAppends (init : List DocumentVersion) (vs : List DocumentVersion) :
    List DocumentVersion := vs.foldl appendVersion init

theorem runAppends_eq (vs : List DocumentVersion) :
    ∀ init, runAppends init vs = init ++ vs := by
  induction vs with
  | nil => intro init; simp [runAppends]
  | cons v vs ih =>
    intro init
    simp only [runAppends, List.foldl_cons] at ih ⊢
    rw [ih (appendVersion init v)]
    simp [appendVersion]

/-- C8: appends accumulate in call order (a run of appends from the empty
store lists exactly the appended versions, in order), each successful
append grows the store by exactly one, and the prefix of previously
stored entries is preserved verbatim — no entry is mutated or deleted. -/
theorem version_store_append_only (vs s : List DocumentVersion)
    (v : DocumentVersion) :
    runAppends [] vs = vs
    ∧ (appendVersion s v).length = s.length + 1
    ∧ (appendVersion s v).take s.length = s := by
  refine ⟨?_, ?_, ?_⟩
  · rw [runAppends_eq]; simp
  · simp [appendVersion]
  · exact List.take_left s [v]

-- ============================================================
-- Edit History window (workspace-context addEditHistoryEntry:
-- `editHistory: [...prev.editHistory.slice(-9), entry]`)
-- ============================================================

/-- One history insertion: keep the last 9 previous entries and append
the new one. -/
def addEditHistoryEntry (editHistory : List EditHistoryEntry)
    (entry : EditHistoryEntry) : List EditHistoryEntry :=
  takeLast 9 editHistory ++ [entry]

/-- A whole sequence of insertions from a given initial state. -/
def runEdits (init : List EditHistoryEntry) (es : List EditHistoryEntry) :
    List EditHistoryEntry := es.foldl addEditHistoryEntry init

theorem takeLast_concat {α : Type} (k : Nat) (xs : List α) (e : α) :
    takeLast (k + 1) (xs ++ [e]) = takeLast k xs ++ [e] := by
  unfold takeLast
  rw [List.drop_append_eq_append_drop]
  have h1 : (xs ++ [e]).length - (k + 1) = xs.length - k := by
    simp
  rw [h1]
  have h2 : xs.length - k - xs.length = 0 := by omega
  rw [h2]
  simp

theorem takeLast_takeLast {α : Type} (a b : Nat) (xs : List α) (hab : a ≤ b) :
    takeLast a (takeLast b xs) = takeLast a xs := by
  unfold takeLast
  rw [List.drop_drop]
  congr 1
  simp only [List.length_drop]
  omega

theorem runEdits_eq_takeLast (es : List EditHistoryEntry) :
    runEdits [] es = takeLast 10 es := by
  induction es using List.reverseRecOn with
  | nil => simp [runEdits, takeLast]
  | append_singleton xs e ih =>
    simp only [runEdits, List.foldl_append, List.foldl_cons, List.foldl_nil] at ih ⊢
    rw [ih, addEditHistoryEntry, takeLast_takeLast 9 10 xs (by omega),
      takeLast_concat]

/-- C9: from the empty initial state, a run of history insertions leaves
exactly the last 10 inserted entries in insertion order (earlier entries
silently discarded); the stored history never exceeds 10 entries, and a
single insertion into any state yields at most 10 entries. -/
theorem edit_history_window (es h : List EditHistoryEntry)
    (e : EditHistoryEntry) :
    runEdits [] es = takeLast 10 es
    ∧ takeLast 10 es = es.drop (es.length - 10)
    ∧ (runEdits [] es).length ≤ 10
    ∧ (addEditHistoryEntry h e).length ≤ 10 := by
  refine ⟨runEdits_eq_takeLast es, rfl, ?_, ?_⟩
  · rw [runEdits_eq_takeLast]
    simp only [takeLast, List.length_drop]
    omega
  · simp only [addEditHistoryEntry, takeLast, List.length_append,
      List.length_drop, List.length_cons, List.length_nil]
    omega

end Provocations
